import Mathlib

/-!
Verification development for the animal-speed bar-chart component and the
species details dialog.

The chart component (`AnimalSpeedGraph`) loads a CSV of animal records, builds
three d3 scales (a band scale over names, a linear "niced" scale over speeds,
and an ordinal color scale over diets), and draws bars, labels, a legend and a
title into an SVG surface, clearing the surface on every render.  The dialog
component gates its "Edit Species" action on an author-identity check.

All numeric computation is modelled over `ℚ` (the source computes with JS
numbers; none of the verified properties depend on floating-point rounding).
The d3 library functions are embedded from their semantics as exercised by the
source file: `scaleBand` with `padding(0.2)` (default `align = 0.5`, no
rounding), `scaleLinear().domain([0, max]).nice().range([innerHeight, 0])`,
`scaleOrdinal` with the default implicit-unknown behaviour, and `d3.max`.
-/

/-- A parsed CSV row: `{ name, speed, diet }`.  The TypeScript interface
restricts `diet` to the three-value union, but at runtime the CSV value is
passed through with a bare type assertion and no validation, so the faithful
runtime model is an arbitrary string. -/
structure AnimalDatum where
  name : String
  speed : ℚ
  diet : String
deriving DecidableEq, Repr

/-- Chart width: `Math.max(containerWidth, 600)`. -/
def chartWidth (containerWidth : ℚ) : ℚ := max containerWidth 600

/-- Chart height: `Math.max(containerHeight, 400)`. -/
def chartHeight (containerHeight : ℚ) : ℚ := max containerHeight 400

/-- Margins `{ top: 70, right: 60, bottom: 80, left: 100 }`. -/
structure ChartMargin where
  top : ℚ
  right : ℚ
  bottom : ℚ
  left : ℚ

def chartMargin : ChartMargin := ⟨70, 60, 80, 100⟩

/-- Computation `innerWidth = width - margin.left - margin.right`. -/
def innerWidth (containerWidth : ℚ) : ℚ :=
  chartWidth containerWidth - chartMargin.left - chartMargin.right

/-- Computation `innerHeight = height - margin.top - margin.bottom`. -/
def innerHeight (containerHeight : ℚ) : ℚ :=
  chartHeight containerHeight - chartMargin.top - chartMargin.bottom

/-- Model of `d3.max(animalData, d => d.speed)`: `undefined` (`none`) on an empty
sequence, otherwise the maximum of the speeds. -/
def maxSpeed? : List AnimalDatum → Option ℚ
  | [] => none
  | d :: rest => some (rest.foldl (fun m x => max m x.speed) d.speed)

/-- First index of `v` in `dom`, counting from `i`; models the insertion-order
index map of a d3 ordinal scale's domain. -/
def indexOfAux (dom : List String) (v : String) (i : Nat) : Option Nat :=
  match dom with
  | [] => none
  | d :: rest => if d = v then some i else indexOfAux rest v (i + 1)

def indexOfQ (dom : List String) (v : String) : Option Nat :=
  indexOfAux dom v 0

/-- The d3 ordinal domain setter keeps the first occurrence of each value in
input order. -/
def insertDomain (dom : List String) (v : String) : List String :=
  if v ∈ dom then dom else dom ++ [v]

def ordinalDomain (vs : List String) : List String :=
  vs.foldl insertDomain []

/-- Color scale range: `["#5AA469", "#C75C5C", "#4D96FF"]`. -/
def colorRange : List String := ["#5AA469", "#C75C5C", "#4D96FF"]

/-- Color scale domain: `["Herbivore", "Carnivore", "Omnivore"]`. -/
def dietDomain : List String := ["Herbivore", "Carnivore", "Omnivore"]

/-- One application of the ordinal color scale, with d3's default implicit
unknown: a value not in the domain is appended to the domain and receives
`range[i % range.length]` for its new index `i`; the returned pair carries the
color and the (possibly extended) domain. -/
def ordinalLookup (dom : List String) (v : String) : String × List String :=
  match indexOfQ dom v with
  | some i => (colorRange.getD (i % colorRange.length) "", dom)
  | none => (colorRange.getD (dom.length % colorRange.length) "", dom ++ [v])

/-- A constructed band scale: the deduplicated domain, the band start
positions (in domain order) and the bandwidth. -/
structure BandScale where
  dom : List String
  positions : List ℚ
  bandwidth : ℚ
deriving DecidableEq, Repr

/-- Model of `scaleBand().domain(names).range([r0, r1]).padding(p)`; embedding of the
d3 band-scale `rescale` computation for `round = false`.  `padding(p)` sets
both inner and outer padding to `p`; `align` defaults to `1/2`. -/
def mkBand (names : List String) (r0 r1 paddingInner paddingOuter align : ℚ) :
    BandScale :=
  let dom := ordinalDomain names
  let n : ℚ := dom.length
  let rev := r1 < r0
  let start0 := if rev then r1 else r0
  let stop := if rev then r0 else r1
  let step := (stop - start0) / max 1 (n - paddingInner + paddingOuter * 2)
  let start := start0 + (stop - start0 - step * (n - paddingInner)) * align
  let values := (List.range dom.length).map fun i : ℕ => start + step * (i : ℚ)
  ⟨dom, if rev then values.reverse else values, step * (1 - paddingInner)⟩

/-- Band-scale application `x(v)`: the underlying ordinal scale has
`unknown = undefined`, so a value outside the domain yields `none`. -/
def bandApply (b : BandScale) (v : String) : Option ℚ :=
  (indexOfQ b.dom v).bind fun i => b.positions.get? i

/-- Two-point linear interpolation used by a d3 continuous scale: `normalize`
then `interpolateNumber`; a degenerate domain normalizes every input to
`1/2`. -/
def linT (a b ra rb v : ℚ) : ℚ :=
  if b - a = 0 then ra * (1 - 1 / 2) + rb * (1 / 2)
  else ra * (1 - (v - a) / (b - a)) + rb * ((v - a) / (b - a))

/-- Model of `scaleLinear().domain([d0, d1]).range([r0, r1])` applied to `v`; d3's
`bimap` swaps both pairs when the domain is decreasing. -/
def linApply (d0 d1 r0 r1 v : ℚ) : ℚ :=
  if d1 < d0 then linT d1 d0 r1 r0 v else linT d0 d1 r0 r1 v

/-- Model of `d3.tickIncrement(start, stop, count)`: the tick step for a positive span,
encoded negatively (as `-1/step`'s denominator) when the step is below one.
`⌊log₁₀ step⌋` is `Int.log 10 step`, and the comparisons of
`error = step / 10 ^ power` against `√50`, `√10`, `√2` are carried out on
squares.  Meaningful for `start < stop` and `count > 0` (the only way the
source reaches it); JS produces NaN/infinite junk otherwise. -/
def tickIncrement (start stop count : ℚ) : ℚ :=
  let step := (stop - start) / max 0 count
  let power := Int.log 10 step
  let error := step / (10 : ℚ) ^ power
  let factor : ℚ :=
    if 50 ≤ error ^ 2 then 10
    else if 10 ≤ error ^ 2 then 5
    else if 2 ≤ error ^ 2 then 2
    else 1
  if 0 ≤ power then factor * (10 : ℚ) ^ power
  else -((10 : ℚ) ^ (-power)) / factor

/-- The iteration inside `scaleLinear().nice()` (d3-scale `nice`, ten
iterations maximum): expand `[start, stop]` to multiples of the current tick
increment until the increment stabilises; commit the expanded bounds on
stabilisation, otherwise leave the original domain `orig` unchanged. -/
def niceLoop : Nat → ℚ → ℚ → Option ℚ → ℚ × ℚ → ℚ × ℚ
  | 0, _, _, _, orig => orig
  | fuel + 1, start, stop, prestep, orig =>
    let step := tickIncrement start stop 10
    if prestep = some step then (start, stop)
    else if 0 < step then
      niceLoop fuel (⌊start / step⌋ * step) (⌈stop / step⌉ * step) (some step) orig
    else if step < 0 then
      niceLoop fuel (⌈start * step⌉ / step) (⌊stop * step⌋ / step) (some step) orig
    else orig

/-- Model of `scaleLinear().domain([d0, d1]).nice()` with the default count of 10:
swaps a decreasing domain, runs the nice iteration, and restores the
orientation. -/
def niceDomain (d0 d1 : ℚ) : ℚ × ℚ :=
  if d1 < d0 then
    let p := niceLoop 10 d1 d0 none (d1, d0)
    (p.2, p.1)
  else niceLoop 10 d0 d1 none (d0, d1)

/-- JS `Math.round`: nearest integer, halves toward positive infinity. -/
def roundQ (x : ℚ) : ℤ := ⌊x + 1 / 2⌋

/-- Model of `d3.ticks(start, stop, count)`: the tick values rendered by
`axisLeft(y).ticks(6)`. -/
def ticksQ (start stop count : ℚ) : List ℚ :=
  if start = stop ∧ 0 < count then [start]
  else
    let rev := stop < start
    let s := if rev then stop else start
    let e := if rev then start else stop
    let step := tickIncrement s e count
    if step = 0 then []
    else if 0 < step then
      let i0 := ⌈s / step⌉
      let i1 := ⌊e / step⌋
      let ticks := (List.range (i1 - i0 + 1).toNat).map
        fun i => ((i0 + i : ℤ) : ℚ) * step
      if rev then ticks.reverse else ticks
    else
      let inc := -step
      let i0 := ⌈s * inc⌉
      let i1 := ⌊e * inc⌋
      let ticks := (List.range (i1 - i0 + 1).toNat).map
        fun i => ((i0 + i : ℤ) : ℚ) / inc
      if rev then ticks.reverse else ticks

/-- A drawn bar rectangle: `x`, `y`, `width`, `height`, `fill` attributes of a
`rect.bar`. -/
structure BarRect where
  x : ℚ
  y : ℚ
  w : ℚ
  h : ℚ
  fill : String
deriving DecidableEq, Repr

/-- A per-bar value label (`text.bar-label`): anchor position and the speed
value it displays. -/
structure BarLabel where
  x : ℚ
  y : ℚ
  value : ℚ
deriving DecidableEq, Repr

/-- One legend entry: vertical offset of its group, swatch fill color, text. -/
structure LegendEntry where
  offsetY : ℚ
  fill : String
  labelText : String
deriving DecidableEq, Repr

/-- Everything one render pass draws into the SVG. -/
structure Scene where
  xAxisLabels : List String
  yAxisTicks : List ℚ
  xTitle : String
  yTitle : String
  bars : List BarRect
  barLabels : List BarLabel
  legend : List LegendEntry
  title : String
deriving DecidableEq, Repr

/-- The per-datum step of the bar join: computes the rect attributes for `d`
and threads the ordinal color scale's domain (which d3's implicit-unknown
lookup may extend).  `x(d.name)!` is modelled by defaulting the `Option` — for
data drawn by the component the name is always in the band domain. -/
def barStep (x : BandScale) (y : ℚ → ℚ) (ih : ℚ)
    (acc : List BarRect × List String) (d : AnimalDatum) :
    List BarRect × List String :=
  let c := ordinalLookup acc.2 d.diet
  (acc.1 ++ [{ x := (bandApply x d.name).getD 0
               y := y d.speed
               w := x.bandwidth
               h := ih - y d.speed
               fill := c.1 }], c.2)

/-- The legend join over `diets = ["Herbivore", "Carnivore", "Omnivore"]`:
each item translated to `(0, i * 20)`, a swatch filled from the (stateful)
color scale, and its text; returns the entries and the final color domain. -/
def legendItems (dom : List String) : List LegendEntry × List String :=
  let c0 := ordinalLookup dom "Herbivore"
  let c1 := ordinalLookup c0.2 "Carnivore"
  let c2 := ordinalLookup c1.2 "Omnivore"
  ([⟨0, c0.1, "Herbivore"⟩, ⟨20, c1.1, "Carnivore"⟩, ⟨40, c2.1, "Omnivore"⟩],
   c2.2)

/-- The body of the render effect after the empty-data guard, given the
defined maximum speed `m`: build the three scales and draw axes, bars, labels,
legend and title. -/
def buildScene (animalData : List AnimalDatum) (m cw ch : ℚ) : Scene :=
  let iw := innerWidth cw
  let ih := innerHeight ch
  let x := mkBand (animalData.map (·.name)) 0 iw (2/10) (2/10) (1/2)
  let yd := niceDomain 0 m
  let y := fun v => linApply yd.1 yd.2 ih 0 v
  let bc := animalData.foldl (barStep x y ih) ([], dietDomain)
  let lg := legendItems bc.2
  { xAxisLabels := x.dom
    yAxisTicks := ticksQ yd.1 yd.2 6
    xTitle := "Animal"
    yTitle := "Speed (km/h)"
    bars := bc.1
    barLabels := animalData.map fun d =>
      ⟨(bandApply x d.name).getD 0 + x.bandwidth / 2, y d.speed - 6, d.speed⟩
    legend := lg.1
    title := "Animal Speeds by Diet" }

/-- Clearing step `graphRef.current.innerHTML = ""`: every render pass first discards all
previously drawn content. -/
def clearSurface (_surface : List Scene) : List Scene := []

/-- One run of the render effect over the drawing surface (modelled as the
list of SVG roots currently attached to the container): clear, then return
early if the dataset is empty, otherwise append a freshly drawn scene.  The
`none` branch of the maximum is unreachable behind the length guard. -/
def renderPass (surface : List Scene) (animalData : List AnimalDatum)
    (cw ch : ℚ) : List Scene :=
  let s1 := clearSurface surface
  if animalData.length = 0 then s1
  else
    match maxSpeed? animalData with
    | none => s1
    | some m => s1 ++ [buildScene animalData m cw ch]

/-- Events the load effect can observe: the CSV promise resolving with rows,
or the component unmounting (the effect cleanup that sets `cancelled`). -/
inductive LoadEvent
  | resolve (rows : List AnimalDatum)
  | unmount
deriving DecidableEq, Repr

/-- State of the load effect: the `cancelled` closure flag and the log of
`setAnimalData` invocations. -/
structure LoadState where
  cancelled : Bool
  setterCalls : List (List AnimalDatum)
deriving DecidableEq, Repr

def initLoadState : LoadState := ⟨false, []⟩

/-- One event step: cleanup sets `cancelled := true`; promise resolution runs
`if (!cancelled) setAnimalData(rows)`. -/
def loadStep (s : LoadState) : LoadEvent → LoadState
  | .unmount => { s with cancelled := true }
  | .resolve rows =>
    if s.cancelled then s else { s with setterCalls := s.setterCalls ++ [rows] }

/-- Run the load effect over an interleaving of events. -/
def runLoad (t : List LoadEvent) : LoadState :=
  t.foldl loadStep initLoadState

/-- Settlement of the CSV fetch promise. -/
inductive FetchResult
  | success (rows : List AnimalDatum)
  | failure (message : String)
deriving DecidableEq, Repr

/-- Outcome of the load effect's promise chain on one settlement. -/
structure PromiseOutcome where
  dataset : List AnimalDatum
  setterCalled : Bool
  handled : Bool
deriving DecidableEq, Repr

/-- The promise chain of the load effect is `csv(...).then(onFulfilled)` with
no rejection handler anywhere in the chain: on success the fulfillment handler
runs (and updates state unless cancelled); on failure no handler runs — the
dataset keeps its current value `st`, the state setter is not called, and the
rejection is left unhandled. -/
def loadEffectOutcome (cancelled : Bool) (st : List AnimalDatum) :
    FetchResult → PromiseOutcome
  | .success rows =>
    if cancelled then ⟨st, false, true⟩ else ⟨rows, true, true⟩
  | .failure _ => ⟨st, false, false⟩

/-- The fields of a species row the dialog reads. -/
structure Species where
  id : Nat
  scientific_name : String
  common_name : Option String
  kingdom : String
  total_population : Option Int
  image : Option String
  description : Option String
  author : String
deriving DecidableEq, Repr

/-- Check `const isAuthor = userId === species.author`. -/
def isAuthor (userId : String) (species : Species) : Bool :=
  userId == species.author

/-- The action buttons of the details dialog. -/
inductive DialogAction
  | editSpeciesButton
  | closeButton
  | updateSpeciesButton
  | cancelButton
deriving DecidableEq, Repr

/-- Action buttons rendered by the dialog content: in edit mode the form's
Update/Cancel pair; in view mode the Edit Species button guarded by
`isAuthor`, then the Close button. -/
def actionButtons (isEditing : Bool) (userId : String) (species : Species) :
    List DialogAction :=
  if isEditing then [.updateSpeciesButton, .cancelButton]
  else
    (if isAuthor userId species then [.editSpeciesButton] else []) ++
      [.closeButton]

/-- The example dataset named by the spec's testable properties. -/
def cheetah : AnimalDatum := ⟨"Cheetah", 120, "Carnivore"⟩

def elephant : AnimalDatum := ⟨"Elephant", 40, "Herbivore"⟩

def sampleData : List AnimalDatum := [cheetah, elephant]

/-- A record with measurement exactly zero. -/
def snail : AnimalDatum := ⟨"Snail", 0, "Herbivore"⟩

/-- A non-empty dataset whose maximum measurement is zero: spec-valid input
(measurements are non-negative) on which the numeric scale's domain
degenerates to `[0, 0]`. -/
def zeroSpeedData : List AnimalDatum := [snail]

theorem indexOfAux_eq_none (dom : List String) (v : String) (h : v ∉ dom) :
    ∀ i, indexOfAux dom v i = none := by
  induction dom with
  | nil => intro i; rfl
  | cons d rest ihr =>
    intro i
    simp only [List.mem_cons, not_or] at h
    simp only [indexOfAux]
    rw [if_neg fun hdv => h.1 hdv.symm]
    exact ihr h.2 (i + 1)

theorem loadStep_keeps_cancelled (t : List LoadEvent) :
    ∀ s : LoadState, s.cancelled = true →
      (t.foldl loadStep s).setterCalls = s.setterCalls ∧
        (t.foldl loadStep s).cancelled = true := by
  induction t with
  | nil => exact fun s h => ⟨rfl, h⟩
  | cons e rest ihr =>
    intro s h
    simp only [List.foldl_cons]
    cases e with
    | unmount =>
      have := ihr { s with cancelled := true } rfl
      exact ⟨this.1, this.2⟩
    | resolve rows =>
      have hstep : loadStep s (.resolve rows) = s := by
        simp [loadStep, h]
      rw [hstep]
      exact ihr s h

/-- C1: if the view unmounts before the CSV fetch resolves, the eventual fetch
result is discarded: in every interleaving of load-effect events, no
`setAnimalData` call is recorded after the unmount event, because the cleanup
closure sets `cancelled` and the fulfillment handler is guarded by
`if (!cancelled)`. -/
theorem no_setter_calls_after_unmount (pre post : List LoadEvent) :
    (runLoad (pre ++ LoadEvent.unmount :: post)).setterCalls =
      (runLoad (pre ++ [LoadEvent.unmount])).setterCalls := by
  unfold runLoad
  rw [List.foldl_append, List.foldl_append]
  simp only [List.foldl_cons, List.foldl_nil]
  exact (loadStep_keeps_cancelled post (loadStep (pre.foldl loadStep initLoadState)
    LoadEvent.unmount) rfl).1

/-- C2 counterexample: the claim says a network or parse failure "is caught",
but the load effect's promise chain is `csv(...).then(onFulfilled)` with no
rejection handler anywhere, so the rejection of the CSV fetch promise is not
handled by the component. -/
theorem csvFailure_not_caught :
    (loadEffectOutcome false [] (FetchResult.failure "network error")).handled
      = false := rfl

/-- C2 (amended): on a network or parse failure the fulfillment handler never
runs, so the state setter is not called, the dataset remains empty, and the
render pass draws no chart; the rejection itself, however, is left unhandled
rather than caught. -/
theorem csvFailure_leaves_dataset_empty (message : String) (surface : List Scene)
    (cw ch : ℚ) :
    (loadEffectOutcome false [] (FetchResult.failure message)).dataset = [] ∧
      (loadEffectOutcome false [] (FetchResult.failure message)).setterCalled
        = false ∧
      renderPass surface
        (loadEffectOutcome false [] (FetchResult.failure message)).dataset cw ch
        = [] ∧
      (loadEffectOutcome false [] (FetchResult.failure message)).handled
        = false := by
  refine ⟨rfl, rfl, ?_, rfl⟩
  simp [renderPass, loadEffectOutcome, clearSurface]

/-- C3: with an empty dataset the render pass returns right after clearing the
surface: nothing is drawn, the scale builder is never reached, and indeed the
maximum of an empty measurement sequence is undefined (`none`) — while for any
dataset that passes the guard the maximum is defined. -/
theorem renderPass_empty_short_circuits :
    (∀ (surface : List Scene) (cw ch : ℚ), renderPass surface [] cw ch = []) ∧
      maxSpeed? [] = none ∧
      ∀ animalData : List AnimalDatum, animalData.length ≠ 0 →
        (maxSpeed? animalData).isSome = true := by
  refine ⟨fun surface cw ch => rfl, rfl, fun animalData h => ?_⟩
  cases animalData with
  | nil => exact absurd rfl h
  | cons d rest => rfl

theorem renderPass_empty_short_circuits_witness :
    sampleData.length ≠ 0 ∧ (maxSpeed? sampleData).isSome = true :=
  ⟨by decide, renderPass_empty_short_circuits.2.2 sampleData (by decide)⟩

/-- C7: the ordinal color scale maps the fixed three-diet domain, in its
stable order, to the three fixed colors in the same order, and any value
outside that domain receives a defined color drawn from the range (d3's
implicit-unknown behaviour) instead of failing. -/
theorem color_scale_mapping_and_fallback :
    (ordinalLookup dietDomain "Herbivore").1 = "#5AA469" ∧
      (ordinalLookup dietDomain "Carnivore").1 = "#C75C5C" ∧
      (ordinalLookup dietDomain "Omnivore").1 = "#4D96FF" ∧
      ∀ v : String, v ∉ dietDomain →
        (ordinalLookup dietDomain v).1 ∈ colorRange := by
  refine ⟨rfl, rfl, rfl, fun v hv => ?_⟩
  have hnone : indexOfQ dietDomain v = none := indexOfAux_eq_none dietDomain v hv 0
  simp [ordinalLookup, hnone, colorRange]
  exact Or.inl rfl

theorem color_scale_mapping_and_fallback_witness :
    "Unknown" ∉ dietDomain ∧
      (ordinalLookup dietDomain "Unknown").1 ∈ colorRange :=
  ⟨by decide, color_scale_mapping_and_fallback.2.2.2 "Unknown" (by decide)⟩

/-- C8: a render pass first clears the surface and then redraws everything
from the dataset alone, so re-rendering is idempotent and never accumulates:
the drawn content is independent of whatever was on the surface before. -/
theorem renderPass_idempotent (surface : List Scene)
    (animalData : List AnimalDatum) (cw ch : ℚ) :
    renderPass (renderPass surface animalData cw ch) animalData cw ch =
        renderPass surface animalData cw ch ∧
      ∀ surface2 : List Scene,
        renderPass surface2 animalData cw ch =
          renderPass surface animalData cw ch :=
  ⟨rfl, fun _ => rfl⟩

/-- C9: in the dialog's view mode the Edit Species button is rendered exactly
when `isAuthor` holds, i.e. when the viewing user's id equals the species
record's `author` field. -/
theorem edit_button_iff_author (userId : String) (species : Species) :
    DialogAction.editSpeciesButton ∈ actionButtons false userId species ↔
      userId = species.author := by
  by_cases h : userId = species.author <;>
    simp [actionButtons, isAuthor, h]

theorem ordinalLookup_extended (ext : List String) :
    ordinalLookup (dietDomain ++ ext) "Herbivore" = ("#5AA469", dietDomain ++ ext) ∧
      ordinalLookup (dietDomain ++ ext) "Carnivore" = ("#C75C5C", dietDomain ++ ext) ∧
      ordinalLookup (dietDomain ++ ext) "Omnivore" = ("#4D96FF", dietDomain ++ ext) := by
  refine ⟨?_, ?_, ?_⟩ <;>
    simp [ordinalLookup, indexOfQ, indexOfAux, dietDomain, colorRange,
      List.cons_append, List.nil_append]

theorem barStep_dom (x : BandScale) (y : ℚ → ℚ) (ih : ℚ)
    (acc : List BarRect × List String) (d : AnimalDatum) :
    (barStep x y ih acc d).2 = acc.2 ∨
      (barStep x y ih acc d).2 = acc.2 ++ [d.diet] := by
  simp only [barStep, ordinalLookup]
  cases h : indexOfQ acc.2 d.diet <;> simp [h]

theorem foldl_barStep_dom (x : BandScale) (y : ℚ → ℚ) (ih : ℚ)
    (data : List AnimalDatum) :
    ∀ (s : List BarRect × List String) (ext : List String),
      s.2 = dietDomain ++ ext →
      ∃ ext2, (data.foldl (barStep x y ih) s).2 = dietDomain ++ ext2 := by
  induction data with
  | nil => exact fun s ext h => ⟨ext, h⟩
  | cons d rest ihr =>
    intro s ext h
    simp only [List.foldl_cons]
    rcases barStep_dom x y ih s d with h2 | h2
    · exact ihr _ ext (h2.trans h)
    · exact ihr _ (ext ++ [d.diet]) (by rw [h2, h, List.append_assoc])

theorem legendItems_extended (ext : List String) :
    (legendItems (dietDomain ++ ext)).1 =
      [⟨0, "#5AA469", "Herbivore"⟩, ⟨20, "#C75C5C", "Carnivore"⟩,
        ⟨40, "#4D96FF", "Omnivore"⟩] := by
  have h := ordinalLookup_extended ext
  simp [legendItems, h.1, h.2.1, h.2.2]

/-- C10: whatever the dataset, the drawn legend has exactly the three fixed
entries Herbivore, Carnivore, Omnivore, in that order with their fixed colors:
the legend join runs over the constant `diets` array, and even when rows with
out-of-enumeration diets have extended the color scale's domain during the bar
join, the three original diets keep their original indices and colors. -/
theorem legend_fixed_three_entries (animalData : List AnimalDatum)
    (m cw ch : ℚ) :
    (buildScene animalData m cw ch).legend =
      [⟨0, "#5AA469", "Herbivore"⟩, ⟨20, "#C75C5C", "Carnivore"⟩,
        ⟨40, "#4D96FF", "Omnivore"⟩] := by
  obtain ⟨ext2, h⟩ :=
    foldl_barStep_dom
      (mkBand (animalData.map (·.name)) 0 (innerWidth cw) (2/10) (2/10) (1/2))
      (fun v => linApply (niceDomain 0 m).1 (niceDomain 0 m).2 (innerHeight ch) 0 v)
      (innerHeight ch) animalData ([], dietDomain) [] (by simp)
  simp only [buildScene]
  rw [h]
  exact legendItems_extended ext2

theorem niceLoop_start_zero (fuel : Nat) :
    ∀ (stop : ℚ) (pre : Option ℚ) (o1 : ℚ),
      (niceLoop fuel 0 stop pre (0, o1)).1 = 0 := by
  induction fuel with
  | zero => intro stop pre o1; rfl
  | succ n ihf =>
    intro stop pre o1
    simp only [niceLoop, zero_div, Int.floor_zero, Int.cast_zero, zero_mul,
      Int.ceil_zero]
    split_ifs with h1 h2 h3
    · rfl
    · exact ihf _ _ _
    · exact ihf _ _ _
    · rfl

theorem niceLoop_stop_ge (fuel : Nat) :
    ∀ (start stop : ℚ) (pre : Option ℚ) (o0 o1 : ℚ), o1 ≤ stop →
      o1 ≤ (niceLoop fuel start stop pre (o0, o1)).2 := by
  induction fuel with
  | zero => intro start stop pre o0 o1 h; exact le_refl o1
  | succ n ihf =>
    intro start stop pre o0 o1 h
    simp only [niceLoop]
    split_ifs with h1 h2 h3
    · exact h
    · refine ihf _ _ _ _ _ (h.trans ?_)
      have hc : stop / tickIncrement start stop 10 ≤
          (⌈stop / tickIncrement start stop 10⌉ : ℚ) := Int.le_ceil _
      calc stop = stop / tickIncrement start stop 10 * tickIncrement start stop 10 := by
            field_simp
        _ ≤ (⌈stop / tickIncrement start stop 10⌉ : ℚ) * tickIncrement start stop 10 :=
            mul_le_mul_of_nonneg_right hc (le_of_lt h2)
    · refine ihf _ _ _ _ _ (h.trans ?_)
      rw [le_div_iff_of_neg h3]
      exact Int.floor_le _
    · exact le_refl o1

theorem niceDomain_fst (m : ℚ) (h : 0 ≤ m) : (niceDomain 0 m).1 = 0 := by
  unfold niceDomain
  rw [if_neg (not_lt.mpr h)]
  exact niceLoop_start_zero 10 m none m

theorem le_niceDomain_snd (m : ℚ) (h : 0 ≤ m) : m ≤ (niceDomain 0 m).2 := by
  unfold niceDomain
  rw [if_neg (not_lt.mpr h)]
  exact niceLoop_stop_ge 10 0 m none 0 m (le_refl m)

/-- C4 (amended): for a non-empty dataset whose maximum speed is positive, the
numeric scale has domain `[0, niced-max]` with the upper bound rounded outward
(`max ≤ niced-max`), and with range `[innerHeight, 0]` it maps the domain
upper bound to the plotting area's top edge `0` and the measurement `0` to the
bottom edge `innerHeight`.  The positivity hypothesis is necessary: for an
all-zero dataset the domain degenerates to `[0, 0]` and every measurement maps
to `innerHeight/2` instead (see the counterexample). -/
theorem yScale_maps_bounds_to_edges (animalData : List AnimalDatum)
    (ch m : ℚ) (hm : maxSpeed? animalData = some m) (hpos : 0 < m) :
    (niceDomain 0 m).1 = 0 ∧
      m ≤ (niceDomain 0 m).2 ∧
      linApply (niceDomain 0 m).1 (niceDomain 0 m).2 (innerHeight ch) 0
        (niceDomain 0 m).2 = 0 ∧
      linApply (niceDomain 0 m).1 (niceDomain 0 m).2 (innerHeight ch) 0 0 =
        innerHeight ch := by
  have h1 : (niceDomain 0 m).1 = 0 := niceDomain_fst m (le_of_lt hpos)
  have h2 : m ≤ (niceDomain 0 m).2 := le_niceDomain_snd m (le_of_lt hpos)
  have hD : 0 < (niceDomain 0 m).2 := lt_of_lt_of_le hpos h2
  have hne : (niceDomain 0 m).2 - (niceDomain 0 m).1 ≠ 0 := by
    rw [h1]; simpa using ne_of_gt hD
  have hnlt : ¬ (niceDomain 0 m).2 < (niceDomain 0 m).1 := by
    rw [h1]; exact not_lt.mpr (le_of_lt hD)
  refine ⟨h1, h2, ?_, ?_⟩
  · unfold linApply linT
    rw [if_neg hnlt, if_neg hne]
    field_simp
  · unfold linApply linT
    rw [if_neg hnlt, if_neg hne]
    rw [h1]
    field_simp

theorem yScale_maps_bounds_to_edges_witness :
    maxSpeed? sampleData = some 120 ∧ (0 : ℚ) < 120 ∧
      ((niceDomain 0 120).1 = 0 ∧
        (120 : ℚ) ≤ (niceDomain 0 120).2 ∧
        linApply (niceDomain 0 120).1 (niceDomain 0 120).2 (innerHeight 500) 0
          (niceDomain 0 120).2 = 0 ∧
        linApply (niceDomain 0 120).1 (niceDomain 0 120).2 (innerHeight 500) 0 0 =
          innerHeight 500) :=
  ⟨rfl, by norm_num,
    yScale_maps_bounds_to_edges sampleData 500 120 rfl (by norm_num)⟩

theorem innerHeight_ge (ch : ℚ) : 250 ≤ innerHeight ch := by
  unfold innerHeight chartHeight chartMargin
  have := le_max_right ch (400 : ℚ)
  simp only []
  linarith

theorem foldl_barStep_heights (x : BandScale) (y : ℚ → ℚ) (ih : ℚ) :
    ∀ (data : List AnimalDatum) (acc : List BarRect × List String),
      ((data.foldl (barStep x y ih) acc).1).map BarRect.h =
        acc.1.map BarRect.h ++ data.map (fun d => ih - y d.speed) := by
  intro data
  induction data with
  | nil => intro acc; simp
  | cons d rest ihr =>
    intro acc
    simp only [List.foldl_cons, List.map_cons]
    rw [ihr]
    simp [barStep]

/-- C5 (amended): when the dataset's maximum speed is positive, the bar drawn
for the record at index `i` has height `innerHeight - y(speed)`; for a
non-negative measurement the height is non-negative, and a measurement of
exactly zero yields a zero-height bar.  The positivity hypothesis is
necessary: in an all-zero dataset the degenerate scale gives the
zero-measurement bar height `innerHeight/2`, not `0` (see the
counterexample). -/
theorem bar_height_eq_and_nonneg (animalData : List AnimalDatum)
    (m cw ch : ℚ) (i : Nat) (d : AnimalDatum)
    (hd : animalData.get? i = some d) (hm : maxSpeed? animalData = some m)
    (hpos : 0 < m) (hnn : 0 ≤ d.speed) :
    i < (buildScene animalData m cw ch).bars.length ∧
      ((buildScene animalData m cw ch).bars.getD i ⟨0, 0, 0, 0, ""⟩).h =
        innerHeight ch -
          linApply (niceDomain 0 m).1 (niceDomain 0 m).2 (innerHeight ch) 0
            d.speed ∧
      0 ≤ ((buildScene animalData m cw ch).bars.getD i ⟨0, 0, 0, 0, ""⟩).h ∧
      (d.speed = 0 →
        ((buildScene animalData m cw ch).bars.getD i ⟨0, 0, 0, 0, ""⟩).h = 0) := by
  have hmap := foldl_barStep_heights
    (mkBand (animalData.map (·.name)) 0 (innerWidth cw) (2/10) (2/10) (1/2))
    (fun v => linApply (niceDomain 0 m).1 (niceDomain 0 m).2 (innerHeight ch) 0 v)
    (innerHeight ch) animalData ([], dietDomain)
  simp only [List.map_nil, List.nil_append] at hmap
  have hbars : (buildScene animalData m cw ch).bars.map BarRect.h =
      animalData.map (fun d2 => innerHeight ch -
        linApply (niceDomain 0 m).1 (niceDomain 0 m).2 (innerHeight ch) 0
          d2.speed) := by
    simp only [buildScene]
    exact hmap
  have hget : ((buildScene animalData m cw ch).bars.map BarRect.h).get? i =
      some (innerHeight ch -
        linApply (niceDomain 0 m).1 (niceDomain 0 m).2 (innerHeight ch) 0
          d.speed) := by
    rw [hbars, List.get?_map, hd]
    rfl
  rw [List.get?_map] at hget
  cases hr : (buildScene animalData m cw ch).bars.get? i with
  | none => rw [hr] at hget; exact absurd hget (by simp)
  | some r =>
    rw [hr] at hget
    obtain ⟨hlen, -⟩ := List.get?_eq_some.mp hr
    have hgd : (buildScene animalData m cw ch).bars.getD i ⟨0, 0, 0, 0, ""⟩ = r := by
      rw [List.getD_eq_get?, hr]
      rfl
    have hrh : r.h = innerHeight ch -
        linApply (niceDomain 0 m).1 (niceDomain 0 m).2 (innerHeight ch) 0
          d.speed := by
      simpa using hget
    have h1 : (niceDomain 0 m).1 = 0 := niceDomain_fst m (le_of_lt hpos)
    have h2 : m ≤ (niceDomain 0 m).2 := le_niceDomain_snd m (le_of_lt hpos)
    have hD : 0 < (niceDomain 0 m).2 := lt_of_lt_of_le hpos h2
    have hne : (niceDomain 0 m).2 - (niceDomain 0 m).1 ≠ 0 := by
      rw [h1]; simpa using ne_of_gt hD
    have hnlt : ¬ (niceDomain 0 m).2 < (niceDomain 0 m).1 := by
      rw [h1]; exact not_lt.mpr (le_of_lt hD)
    have hih : (0 : ℚ) ≤ innerHeight ch := le_trans (by norm_num) (innerHeight_ge ch)
    have hval : r.h =
        innerHeight ch * d.speed / (niceDomain 0 m).2 := by
      rw [hrh]
      unfold linApply linT
      rw [if_neg hnlt, if_neg hne]
      rw [h1]
      field_simp
      ring
    refine ⟨hlen, ?_, ?_, ?_⟩
    · rw [hgd]
      exact hrh
    · rw [hgd, hval]
      exact div_nonneg (mul_nonneg hih hnn) (le_of_lt hD)
    · intro h0
      rw [hgd, hval, h0]
      simp

theorem bar_height_eq_and_nonneg_witness :
    sampleData.get? 0 = some cheetah ∧ maxSpeed? sampleData = some 120 ∧
      (0 : ℚ) < 120 ∧ 0 ≤ cheetah.speed ∧
      (0 < (buildScene sampleData 120 800 500).bars.length ∧
        ((buildScene sampleData 120 800 500).bars.getD 0 ⟨0, 0, 0, 0, ""⟩).h =
          innerHeight 500 -
            linApply (niceDomain 0 120).1 (niceDomain 0 120).2 (innerHeight 500)
              0 cheetah.speed ∧
        0 ≤ ((buildScene sampleData 120 800 500).bars.getD 0 ⟨0, 0, 0, 0, ""⟩).h ∧
        (cheetah.speed = 0 →
          ((buildScene sampleData 120 800 500).bars.getD 0 ⟨0, 0, 0, 0, ""⟩).h
            = 0)) :=
  ⟨rfl, rfl, by norm_num, by norm_num [cheetah],
    bar_height_eq_and_nonneg sampleData 120 800 500 0 cheetah rfl rfl
      (by norm_num) (by norm_num [cheetah])⟩

theorem innerWidth_ge (cw : ℚ) : 440 ≤ innerWidth cw := by
  unfold innerWidth chartWidth chartMargin
  have := le_max_right cw (600 : ℚ)
  simp only []
  linarith

theorem mkBand_get (names : List String) (r1 pI pO al : ℚ) (h : ¬ r1 < 0)
    (k : Nat) (hk : k < (ordinalDomain names).length) :
    (mkBand names 0 r1 pI pO al).positions.get? k =
      some ((0 - 0 +
        (r1 - 0 -
          (r1 - 0) / max 1 (((ordinalDomain names).length : ℚ) - pI + pO * 2) *
            (((ordinalDomain names).length : ℚ) - pI)) * al) +
        (r1 - 0) / max 1 (((ordinalDomain names).length : ℚ) - pI + pO * 2) *
          (k : ℚ)) := by
  simp only [mkBand, if_neg h]
  rw [List.get?_map, List.get?_range hk]
  simp only [Option.map_some']
  congr 1
  ring

/-- C6: on the dataset `[Cheetah (120, Carnivore), Elephant (40, Herbivore)]`
the band scale over record names with range `[0, innerWidth]` and 20% padding
places Cheetah at `innerWidth/11` and Elephant at `6·innerWidth/11` — Cheetah
strictly before Elephant, both positions inside `[0, innerWidth]` — and in
general band positions are strictly increasing in domain (insertion) order for
any name sequence and positive range width. -/
theorem band_positions_ordered (cw : ℚ) :
    (bandApply
        (mkBand (sampleData.map (·.name)) 0 (innerWidth cw) (2/10) (2/10) (1/2))
        "Cheetah" = some (innerWidth cw / 11) ∧
      bandApply
        (mkBand (sampleData.map (·.name)) 0 (innerWidth cw) (2/10) (2/10) (1/2))
        "Elephant" = some (6 * innerWidth cw / 11) ∧
      0 ≤ innerWidth cw / 11 ∧
      innerWidth cw / 11 < 6 * innerWidth cw / 11 ∧
      6 * innerWidth cw / 11 ≤ innerWidth cw) ∧
    ∀ (names : List String) (r1 : ℚ) (i j : Nat), 0 < r1 → i < j →
      j < (mkBand names 0 r1 (2/10) (2/10) (1/2)).dom.length →
      (mkBand names 0 r1 (2/10) (2/10) (1/2)).positions.getD i 0 <
        (mkBand names 0 r1 (2/10) (2/10) (1/2)).positions.getD j 0 := by
  have hiw : (0 : ℚ) < innerWidth cw :=
    lt_of_lt_of_le (by norm_num) (innerWidth_ge cw)
  have hnr : ¬ innerWidth cw < 0 := not_lt.mpr (le_of_lt hiw)
  constructor
  · have hlen2 : (ordinalDomain (sampleData.map (·.name))).length = 2 := rfl
    have hg0 := mkBand_get (sampleData.map (·.name)) (innerWidth cw)
      (2/10) (2/10) (1/2) hnr 0 (by rw [hlen2]; norm_num)
    have hg1 := mkBand_get (sampleData.map (·.name)) (innerWidth cw)
      (2/10) (2/10) (1/2) hnr 1 (by rw [hlen2]; norm_num)
    rw [hlen2] at hg0 hg1
    have hidx0 : indexOfQ
        (mkBand (sampleData.map (·.name)) 0 (innerWidth cw) (2/10) (2/10) (1/2)).dom
        "Cheetah" = some 0 := rfl
    have hidx1 : indexOfQ
        (mkBand (sampleData.map (·.name)) 0 (innerWidth cw) (2/10) (2/10) (1/2)).dom
        "Elephant" = some 1 := rfl
    refine ⟨?_, ?_, ?_, ?_, ?_⟩
    · simp only [bandApply, hidx0, Option.some_bind]
      rw [hg0]
      congr 1
      push_cast
      norm_num [max_def]
      ring
    · simp only [bandApply, hidx1, Option.some_bind]
      rw [hg1]
      congr 1
      push_cast
      norm_num [max_def]
      ring
    · exact div_nonneg (le_of_lt hiw) (by norm_num)
    · linarith
    · linarith
  · intro names r1 i j hr hij hj
    have hj2 : j < (ordinalDomain names).length := hj
    have hi2 : i < (ordinalDomain names).length := lt_trans hij hj2
    have hgi := mkBand_get names r1 (2/10) (2/10) (1/2)
      (not_lt.mpr (le_of_lt hr)) i hi2
    have hgj := mkBand_get names r1 (2/10) (2/10) (1/2)
      (not_lt.mpr (le_of_lt hr)) j hj2
    rw [List.getD_eq_get?, hgi, List.getD_eq_get?, hgj]
    simp only [Option.getD_some]
    have hden : (0 : ℚ) <
        max 1 (((ordinalDomain names).length : ℚ) - 2/10 + 2/10 * 2) :=
      lt_of_lt_of_le one_pos (le_max_left _ _)
    have hstep : (0 : ℚ) <
        (r1 - 0) / max 1 (((ordinalDomain names).length : ℚ) - 2/10 + 2/10 * 2) := by
      apply div_pos _ hden
      linarith
    have hij2 : (i : ℚ) < (j : ℚ) := by exact_mod_cast hij
    have := mul_lt_mul_of_pos_left hij2 hstep
    linarith

theorem band_positions_ordered_witness :
    (0 : ℚ) < 640 ∧ (0 : Nat) < 1 ∧
      1 < (mkBand ["Cheetah", "Elephant"] 0 640 (2/10) (2/10) (1/2)).dom.length ∧
      (mkBand ["Cheetah", "Elephant"] 0 640 (2/10) (2/10) (1/2)).positions.getD 0 0 <
        (mkBand ["Cheetah", "Elephant"] 0 640 (2/10) (2/10) (1/2)).positions.getD 1 0 :=
  ⟨by norm_num, by norm_num, by decide,
    (band_positions_ordered 800).2 ["Cheetah", "Elephant"] 640 0 1
      (by norm_num) (by norm_num) (by decide)⟩

theorem tickIncrement_zero : tickIncrement 0 0 10 = 1 := by
  simp only [tickIncrement]
  norm_num [Int.log_zero_right]

theorem niceLoop_step (fuel : Nat) (start stop : ℚ) (pre : Option ℚ)
    (orig : ℚ × ℚ) :
    niceLoop (fuel + 1) start stop pre orig =
      if pre = some (tickIncrement start stop 10) then (start, stop)
      else if 0 < tickIncrement start stop 10 then
        niceLoop fuel
          (⌊start / tickIncrement start stop 10⌋ * tickIncrement start stop 10)
          (⌈stop / tickIncrement start stop 10⌉ * tickIncrement start stop 10)
          (some (tickIncrement start stop 10)) orig
      else if tickIncrement start stop 10 < 0 then
        niceLoop fuel
          (⌈start * tickIncrement start stop 10⌉ / tickIncrement start stop 10)
          (⌊stop * tickIncrement start stop 10⌋ / tickIncrement start stop 10)
          (some (tickIncrement start stop 10)) orig
      else orig := rfl

theorem niceLoop_succ_zero (fuel : Nat) :
    ∀ pre : Option ℚ, niceLoop (fuel + 1) 0 0 pre (0, 0) = (0, 0) := by
  induction fuel with
  | zero =>
    intro pre
    rw [niceLoop_step, tickIncrement_zero]
    split_ifs <;> rfl
  | succ n ihn =>
    intro pre
    rw [niceLoop_step, tickIncrement_zero]
    simp only [zero_div, Int.floor_zero, Int.ceil_zero, Int.cast_zero, zero_mul]
    split_ifs with h1 h2 h3
    · rfl
    · exact ihn (some 1)
    · norm_num at h3
    · rfl

theorem niceDomain_zero : niceDomain 0 0 = (0, 0) := by
  unfold niceDomain
  rw [if_neg (lt_irrefl (0 : ℚ))]
  exact niceLoop_succ_zero 9 none

theorem linApply_degenerate (ih v : ℚ) : linApply 0 0 ih 0 v = ih / 2 := by
  unfold linApply linT
  rw [if_neg (lt_irrefl (0 : ℚ))]
  rw [if_pos (by norm_num : (0 : ℚ) - 0 = 0)]
  ring

theorem innerHeight_500 : innerHeight 500 = 350 := by
  unfold innerHeight chartHeight chartMargin
  rw [max_eq_left (by norm_num : (400 : ℚ) ≤ 500)]
  norm_num

/-- C4 counterexample: for the non-empty dataset `[Snail (0, Herbivore)]` the
maximum measurement is `0`, `nice` leaves the degenerate domain `[0, 0]`
unchanged, and the scale's normalize step degenerates to the constant `1/2`,
so with range `[innerHeight, 0] = [350, 0]` every measurement — including the
domain upper bound and `0` — maps to `175`: neither the top edge `0` nor the
bottom edge `350`.  The claim's bound-to-edge mapping therefore fails on this
dataset. -/
theorem yScale_degenerate_counterexample :
    maxSpeed? zeroSpeedData = some 0 ∧ zeroSpeedData.length ≠ 0 ∧
      niceDomain 0 0 = (0, 0) ∧
      linApply (niceDomain 0 0).1 (niceDomain 0 0).2 (innerHeight 500) 0
        (niceDomain 0 0).2 = 175 ∧
      linApply (niceDomain 0 0).1 (niceDomain 0 0).2 (innerHeight 500) 0 0
        = 175 ∧
      innerHeight 500 = 350 ∧
      linApply (niceDomain 0 0).1 (niceDomain 0 0).2 (innerHeight 500) 0
        (niceDomain 0 0).2 ≠ 0 ∧
      linApply (niceDomain 0 0).1 (niceDomain 0 0).2 (innerHeight 500) 0 0 ≠
        innerHeight 500 := by
  have hmap : ∀ v : ℚ,
      linApply (niceDomain 0 0).1 (niceDomain 0 0).2 (innerHeight 500) 0 v
        = 175 := by
    intro v
    rw [niceDomain_zero]
    show linApply 0 0 (innerHeight 500) 0 v = 175
    rw [linApply_degenerate, innerHeight_500]
    norm_num
  refine ⟨rfl, by decide, niceDomain_zero, hmap _, hmap 0, innerHeight_500,
    ?_, ?_⟩
  · rw [hmap]; norm_num
  · rw [hmap, innerHeight_500]; norm_num

/-- C5 counterexample: in the all-zero dataset `[Snail (0, Herbivore)]` the
record's measurement is exactly `0`, yet the bar drawn for it has height
`innerHeight - y(0) = 350 - 175 = 175`, a half-height bar, not the zero-height
bar at the baseline that the claim asserts for a zero measurement. -/
theorem bar_height_degenerate_counterexample :
    maxSpeed? zeroSpeedData = some 0 ∧ snail.speed = 0 ∧
      zeroSpeedData.get? 0 = some snail ∧
      ((buildScene zeroSpeedData 0 800 500).bars.getD 0 ⟨0, 0, 0, 0, ""⟩).h
        = 175 ∧
      ((buildScene zeroSpeedData 0 800 500).bars.getD 0 ⟨0, 0, 0, 0, ""⟩).h
        ≠ 0 := by
  have hy : linApply (niceDomain 0 0).1 (niceDomain 0 0).2 (innerHeight 500) 0
      snail.speed = 175 := by
    rw [niceDomain_zero]
    show linApply 0 0 (innerHeight 500) 0 snail.speed = 175
    rw [linApply_degenerate, innerHeight_500]
    norm_num
  have hbar : ((buildScene zeroSpeedData 0 800 500).bars.getD 0
      ⟨0, 0, 0, 0, ""⟩).h = innerHeight 500 -
        linApply (niceDomain 0 0).1 (niceDomain 0 0).2 (innerHeight 500) 0
          snail.speed := by
    simp only [buildScene, zeroSpeedData, List.foldl_cons, List.foldl_nil,
      barStep, List.nil_append]
    rfl
  refine ⟨rfl, rfl, rfl, ?_, ?_⟩
  · rw [hbar, hy, innerHeight_500]
    norm_num
  · rw [hbar, hy, innerHeight_500]
    norm_num
